import Mathlib

/-!
Verification development for the `visuals` repository: a shallow embedding of
the JSON-backed record store, the tab-separated merge-import of the parts
tracker (`Parts_link.py`), and the idea submission / review / training
workflow with its point ledger (`tribal.py`), together with proofs of the
specified properties.

File paths, collections and timestamps are modelled explicitly: the current
time is passed in as an abstract string, and a backing JSON document is a small
inductive (`Doc`) recording whether the file is absent, unparsable, or holds a
collection.
-/

namespace Visuals

/-! ### Python string primitives used by the scripts -/

/-- Python strip on a character list: drop whitespace from both ends.
(`Char.isWhitespace` covers space, tab, CR and LF, the whitespace that occurs
in this data.) -/
def trimWs (l : List Char) : List Char :=
  ((l.dropWhile Char.isWhitespace).reverse.dropWhile Char.isWhitespace).reverse

/-- Python strip on a string. -/
def pyStrip (s : String) : String :=
  String.mk (trimWs s.toList)

/-- Python upper (ASCII case mapping suffices for this data). -/
def pyUpper (s : String) : String :=
  String.mk (s.toList.map Char.toUpper)

/-- Python split for a one-character separator: split on every
occurrence, keeping empty fields (so the result always has
`count sep + 1` entries). -/
def splitCh (c : Char) : List Char → List (List Char)
  | [] => [[]]
  | x :: xs =>
    if x = c then [] :: splitCh c xs
    else
      match splitCh c xs with
      | [] => [[x]]
      | y :: ys => (x :: y) :: ys

/-- Python split on strings. -/
def pySplit (c : Char) (s : String) : List String :=
  (splitCh c s.toList).map String.mk

/-- Python membership test of a single character in a string. -/
def pyContains (c : Char) (s : String) : Bool :=
  s.toList.any (fun x => x = c)

/-- Python take of the first n characters (used for the date part of submitted_at). -/
def pyTake (n : Nat) (s : String) : String :=
  String.mk (s.toList.take n)

/-! ### Python `dict` as an insertion-ordered association list -/

/-- Python dictionary read: first entry with the given key. -/
def dictFind {α : Type} : List (String × α) → String → Option α
  | [], _ => none
  | (k', v) :: t, k => if k' = k then some v else dictFind t k

/-- Python dictionary write: replace the value at an existing key in place,
or append a fresh entry at the end (insertion order). -/
def dictSet {α : Type} : List (String × α) → String → α → List (String × α)
  | [], k, v => [(k, v)]
  | (k', v') :: t, k, v =>
    if k' = k then (k, v) :: t else (k', v') :: dictSet t k v

/-- Python dictionary get with a default. -/
def dictGetD {α : Type} (d : List (String × α)) (k : String) (dflt : α) : α :=
  (dictFind d k).getD dflt

/-! ### Parts tracker data model (`Parts_link.py`) -/

/-- One record of `parts.json`: `{parent, issues, usage}` (all strings). -/
structure PartData where
  parent : String
  issues : String
  usage : String
deriving DecidableEq, Repr

/-- The parts collection: `parts.json` is a JSON object mapping the
uppercased part number to its record. -/
abbrev PartsCollection := List (String × PartData)

/-- State carried through the import loop of `Parts_link.py` lines 222-263:
the parts dictionary and the three summary counters
(`imported_count`, `updated_count`, `issues_updated_count`). -/
structure ImportState where
  partsData : PartsCollection
  importedCount : Nat
  updatedCount : Nat
  issuesUpdatedCount : Nat
deriving DecidableEq, Repr

/-- Line 234 of Parts_link.py: the stripped, uppercased second field, or empty when the field strips to blank. -/
def lineParent (p1 : String) : String :=
  if pyStrip p1 ≠ "" then pyUpper (pyStrip p1) else ""

/-- Line 235 of Parts_link.py: the stripped third field when it exists and is
non-blank, else empty (`rest` is the list of fields after the first two). -/
def lineIssues (rest : List String) : String :=
  match rest with
  | p2 :: _ => if pyStrip p2 ≠ "" then pyStrip p2 else ""
  | [] => ""

/-- One iteration of the import loop, `Parts_link.py` lines 229-261.
A line is processed only if it contains a tab and splits into at least two
fields (the cons-cons pattern is exactly `len(parts) >= 2`); otherwise the
state is returned unchanged.  For an existing part the merge policy is:
fill `parent` only when the existing one is blank and the incoming one is not,
overwrite `issues` whenever the incoming value is non-blank, and leave `usage`
alone; a new part is inserted with the incoming `parent`/`issues` and empty
`usage`. -/
def processLine (st : ImportState) (line : String) : ImportState :=
  if pyContains '\t' line then
    match pySplit '\t' line with
    | p0 :: p1 :: rest =>
      let partNum := pyUpper (pyStrip p0)
      let parentPart := lineParent p1
      let knownIssues := lineIssues rest
      match dictFind st.partsData partNum with
      | some old =>
        let newParent :=
          if parentPart ≠ "" ∧ old.parent = "" then parentPart else old.parent
        let newIssues := if knownIssues ≠ "" then knownIssues else old.issues
        let partUpdated := (parentPart ≠ "" ∧ old.parent = "") ∨ knownIssues ≠ ""
        { st with
          partsData :=
            dictSet st.partsData partNum
              { old with parent := newParent, issues := newIssues }
          updatedCount :=
            if partUpdated then st.updatedCount + 1 else st.updatedCount
          issuesUpdatedCount :=
            if knownIssues ≠ "" then st.issuesUpdatedCount + 1
            else st.issuesUpdatedCount }
      | none =>
        { st with
          partsData :=
            dictSet st.partsData partNum
              { parent := parentPart, issues := knownIssues, usage := "" }
          importedCount := st.importedCount + 1 }
    | _ => st
  else st

/-- The whole import action, `Parts_link.py` lines 222-263: if the pasted text
is non-blank, split it into lines and fold the per-line merge over them with
all counters starting at zero (a single save happens at the end, so the final
`partsData` is what is persisted). -/
def runImport (store : PartsCollection) (importText : String) : ImportState :=
  if pyStrip importText ≠ "" then
    (pySplit '\n' (pyStrip importText)).foldl processLine ⟨store, 0, 0, 0⟩
  else ⟨store, 0, 0, 0⟩

/-! ### HTML escaping and the parts export (`Parts_link.py` lines 359-371) -/

/-- One full pass of the Python replace of `&` by `&amp;`. -/
def escAmp : List Char → List Char
  | [] => []
  | c :: cs =>
    if c = '&' then '&' :: 'a' :: 'm' :: 'p' :: ';' :: escAmp cs
    else c :: escAmp cs

/-- One full pass of the Python replace of `<` by `&lt;`. -/
def escLt : List Char → List Char
  | [] => []
  | c :: cs =>
    if c = '<' then '&' :: 'l' :: 't' :: ';' :: escLt cs
    else c :: escLt cs

/-- One full pass of the Python replace of `>` by `&gt;`. -/
def escGt : List Char → List Char
  | [] => []
  | c :: cs =>
    if c = '>' then '&' :: 'g' :: 't' :: ';' :: escGt cs
    else c :: escGt cs

/-- Line 361 of Parts_link.py: the chained replaces of `&` by `&amp;`, then
`<` by `&lt;`, then `>` by `&gt;` (each Python replace is one complete
left-to-right pass). -/
def escapeHtml (l : List Char) : List Char :=
  escGt (escLt (escAmp l))

/-- One full pass of the subsequent replace of a newline by `<br>` used for
the `issues` and `usage` columns. -/
def nlToBr : List Char → List Char
  | [] => []
  | c :: cs =>
    if c = '\n' then '<' :: 'b' :: 'r' :: '>' :: nlToBr cs
    else c :: nlToBr cs

/-- A character list is well-escaped when it contains no raw `<` and every
`&` begins one of the entities `&amp;`, `&lt;`, `&gt;` produced by the
exporter.  This is the formal reading of "no literal unescaped `<` or `&`". -/
def htmlSafe : List Char → Bool
  | [] => true
  | '&' :: 'a' :: 'm' :: 'p' :: ';' :: rest => htmlSafe rest
  | '&' :: 'l' :: 't' :: ';' :: rest => htmlSafe rest
  | '&' :: 'g' :: 't' :: ';' :: rest => htmlSafe rest
  | c :: rest => if c = '<' ∨ c = '&' then false else htmlSafe rest

/-- Row of the parts export, a `<tr>` from lines 359-371 of Parts_link.py: the part
number is interpolated as-is; `parent`, `issues` and `usage` are escaped
first, and the two text areas additionally turn newlines into `<br>`.
(The indentation/newlines of the f-string template are immaterial and
omitted.) -/
def partsRow (part : String) (data : PartData) : String :=
  let parent := String.mk (escapeHtml data.parent.toList)
  let issues := String.mk (nlToBr (escapeHtml data.issues.toList))
  let usage := String.mk (nlToBr (escapeHtml data.usage.toList))
  "<tr><td><strong>" ++ part ++ "</strong></td><td>" ++ parent ++
    "</td><td>" ++ issues ++ "</td><td>" ++ usage ++ "</td></tr>"

/-! ### Record store (`load_parts` / `load_json`) -/

/-- A backing JSON document on disk: missing, present but unparsable, or
holding a parsed collection. -/
inductive Doc (α : Type) where
  | absent : Doc α
  | corrupt : Doc α
  | stored (content : α) : Doc α
deriving DecidableEq, Repr

/-- Function load_parts (lines 12-23 of Parts_link.py): if `parts.json` does not
exist, write an empty object to it and return `{}`; otherwise parse it,
returning `{}` when parsing raises.  The result pairs the returned
collection with the state of the document after the call. -/
def load_parts : Doc PartsCollection → PartsCollection × Doc PartsCollection
  | .absent => ([], .stored [])
  | .corrupt => ([], .corrupt)
  | .stored c => (c, .stored c)

/-- Function load_json (lines 32-37 of tribal.py): open and parse the file inside
`try`, returning the default on any failure (`{}` for `points.json`, `[]`
otherwise — the caller passes the default that the filename dispatch
selects).  The document is never written by `load_json` itself. -/
def load_json {α : Type} (dflt : α) : Doc α → α × Doc α
  | .absent => (dflt, .absent)
  | .corrupt => (dflt, .corrupt)
  | .stored c => (c, .stored c)

/-! ### Tribal ideas data model (`tribal.py`) -/

/-- One review embedded in an idea (`tribal.py` lines 146-150). -/
structure Review where
  reviewer : String
  accurate : Bool
  reviewedAt : String
deriving DecidableEq, Repr

/-- One record of `ideas.json` (lines 80-89 of tribal.py).  `trained_by` and
`trained_at` only exist once the idea has been trained, hence `Option`. -/
structure Idea where
  id : Nat
  text : String
  link : Option String
  tag : String
  submitter : String
  submittedAt : String
  reviews : List Review
  trained : Bool
  trainedBy : Option String := none
  trainedAt : Option String := none
deriving DecidableEq, Repr

/-- The points ledger `points.json`: identity string to accumulated total. -/
abbrev PointsLedger := List (String × Nat)

/-- The fixed tag choices of the submit form, `tribal.py` line 58. -/
def predefinedTags : List String :=
  ["UX", "backend", "frontend", "mobile", "AI/ML", "infrastructure",
   "security", "Custom..."]

/-- The tag the form resolves to, `tribal.py` lines 62-65: the custom text
field when `Custom...` is selected, the selected predefined tag otherwise. -/
def effectiveTag (selectedTag customTag : String) : String :=
  if selectedTag = "Custom..." then customTag else selectedTag

/-- The submit handler, `tribal.py` lines 69-95.  Validation: blank idea
text is rejected; with `Custom...` selected a blank (after strip) custom tag
is rejected; an empty resolved tag is rejected.  On success the new idea is
appended with `id = len(ideas) + 1`, stripped text/tag, the stripped link or
`None`, empty reviews and `trained = false`, and the collection is saved.
`none` models the rejected (nothing appended, nothing saved) outcome. -/
def submitIdea (ideas : List Idea) (ideaText link selectedTag customTag user ts : String) :
    Option (List Idea) :=
  let tag := effectiveTag selectedTag customTag
  if pyStrip ideaText ≠ "" then
    if selectedTag = "Custom..." ∧ pyStrip tag = "" then none
    else if tag = "" then none
    else
      some (ideas ++
        [{ id := ideas.length + 1
           text := pyStrip ideaText
           link := if pyStrip link ≠ "" then some (pyStrip link) else none
           tag := pyStrip tag
           submitter := user
           submittedAt := ts
           reviews := []
           trained := false }])
  else none

/-- Line 139 of tribal.py: whether any review of the idea has the current user as its reviewer. -/
def userReviewed (idea : Idea) (user : String) : Bool :=
  idea.reviews.any (fun r => r.reviewer = user)

/-- The review action, `tribal.py` lines 139-171.  `idx` is the position of
the idea the button belongs to in the loaded `ideas` list.  The two button
branches (Accurate / Not Accurate) are identical up to the `accurate`
literal.  When the user already reviewed the idea no button is offered
(line 141), so the state is unchanged; otherwise the review is appended and
the ledger entry of the reviewer becomes its old value (default 0) plus 5. -/
def reviewIdea (ideas : List Idea) (points : PointsLedger) (idx : Nat)
    (user ts : String) (accurate : Bool) : List Idea × PointsLedger :=
  match ideas[idx]? with
  | none => (ideas, points)
  | some idea =>
    if userReviewed idea user then (ideas, points)
    else
      (ideas.set idx
        { idea with reviews := idea.reviews ++ [⟨user, accurate, ts⟩] },
       dictSet points user (dictGetD points user 0 + 5))

/-- The mark-trained action, `tribal.py` lines 208-217: walk the ideas list,
update the first idea whose `id` matches (`break` after the first hit)
setting `trained`, `trained_by`, `trained_at`, and leave the rest alone. -/
def markTrained : List Idea → Nat → String → String → List Idea
  | [], _, _, _ => []
  | idea :: rest, ideaId, trainer, ts =>
    if idea.id = ideaId then
      { idea with trained := true, trainedBy := some trainer,
                  trainedAt := some ts } :: rest
    else idea :: markTrained rest ideaId trainer ts

/-- First idea with the given id, mirroring the id-equality lookup order of
line 211 of tribal.py. -/
def findIdea : List Idea → Nat → Option Idea
  | [], _ => none
  | idea :: rest, ideaId =>
    if idea.id = ideaId then some idea else findIdea rest ideaId

/-- The three state-changing operations of the tribal-ideas workflow. -/
inductive TribalOp where
  | submitOp (ideaText link selectedTag customTag user ts : String)
  | reviewOp (idx : Nat) (user ts : String) (accurate : Bool)
  | trainOp (ideaId : Nat) (trainer ts : String)

/-- Apply one operation to the persisted state (ideas list, points ledger).
A rejected submission leaves the state unchanged. -/
def applyOp (s : List Idea × PointsLedger) (op : TribalOp) :
    List Idea × PointsLedger :=
  match op with
  | .submitOp t l sel c u ts =>
    match submitIdea s.1 t l sel c u ts with
    | some ideas' => (ideas', s.2)
    | none => s
  | .reviewOp idx u ts acc => reviewIdea s.1 s.2 idx u ts acc
  | .trainOp ideaId tr ts => (markTrained s.1 ideaId tr ts, s.2)

/-- The at-most-one-review-per-reviewer invariant: in every idea the
reviewer identities of its reviews are pairwise distinct. -/
abbrev reviewersNodup (ideas : List Idea) : Prop :=
  ∀ idea ∈ ideas, (idea.reviews.map Review.reviewer).Nodup

/-- Modelled from the spec: "the maximum existing id" of §3 (0 for an empty
collection), for comparison with the length-plus-one assignment in the code. -/
def maxExistingId (ideas : List Idea) : Nat :=
  ideas.foldl (fun m i => max m i.id) 0

/-! ### Tribal HTML report (`tribal.py` lines 219-289) -/

/-- Count of the reviews of an idea marked accurate (line 261 of tribal.py). -/
def countAccurate (idea : Idea) : Nat :=
  (idea.reviews.filter (fun r => r.accurate)).length

/-- One `<tr>` of the tribal ideas report, `tribal.py` lines 258-280.  Every
interpolated field — in particular the free-text `text` and `tag` — is
inserted verbatim, with no escaping anywhere in `generate_html_report`.
(Indentation and newlines of the f-string template are immaterial and omitted; the static
header and footer of the report, lines 222-256 and 282-287, contain no
record data.) -/
def tribalRow (idea : Idea) : String :=
  let reviewsText :=
    toString idea.reviews.length ++ " reviews" ++
      (if idea.reviews.length > 0 then
        " (" ++ toString (countAccurate idea) ++ " accurate)"
      else "")
  let status := if idea.trained then "Trained" else "Pending"
  let statusClass := if idea.trained then "trained" else "pending"
  let linkText :=
    match idea.link with
    | some l => "<a href=\"" ++ l ++ "\" target=\"_blank\">Link</a>"
    | none => "N/A"
  "<tr><td>" ++ toString idea.id ++ "</td><td><span class=\"tag\">" ++
    idea.tag ++ "</span></td><td>" ++ idea.text ++ "</td><td>" ++ linkText ++
    "</td><td>" ++ idea.submitter ++ "</td><td>" ++ pyTake 10 idea.submittedAt ++
    "</td><td>" ++ reviewsText ++ "</td><td class=\"" ++ statusClass ++ "\">" ++
    status ++ "</td></tr>"

/-- The body of the report: the row loop of `generate_html_report`. -/
def tribalReportRows (ideas : List Idea) : String :=
  ideas.foldl (fun acc idea => acc ++ tribalRow idea) ""

/-! ### Concrete example data used by witnesses -/

/-- A one-part store whose `X1` has a non-blank parent and a usage value. -/
def exStore : PartsCollection := [("X1", { parent := "X0", issues := "old", usage := "keep" })]

/-- An idea record with sequential id 1 and no reviews. -/
def exIdea1 : Idea :=
  { id := 1, text := "first", link := none, tag := "UX", submitter := "michael",
    submittedAt := "2024-01-01T00:00:00", reviews := [], trained := false }

/-- An idea record with sequential id 2 and one review by alice. -/
def exIdea2 : Idea :=
  { id := 2, text := "second", link := none, tag := "backend", submitter := "michael",
    submittedAt := "2024-01-02T00:00:00",
    reviews := [{ reviewer := "alice", accurate := true, reviewedAt := "2024-01-03T00:00:00" }],
    trained := false }

/-- An idea whose id is 5, not the length-successor of its position. -/
def exIdea5 : Idea :=
  { id := 5, text := "fifth", link := none, tag := "UX", submitter := "michael",
    submittedAt := "2024-01-01T00:00:00", reviews := [], trained := false }

/-- An idea whose free text contains a raw `<` and a raw `&`. -/
def exIdeaMarkup : Idea :=
  { id := 7, text := "a<b&c", link := none, tag := "UX", submitter := "michael",
    submittedAt := "2024-01-02T03:04:05", reviews := [], trained := false }

/-! ### Lemmas about the string primitives -/

theorem splitCh_length (c : Char) (l : List Char) :
    (splitCh c l).length = l.count c + 1 := by
  induction l with
  | nil => simp [splitCh]
  | cons x xs ih =>
    by_cases hx : x = c
    · subst hx
      simp [splitCh, List.count_cons, ih]
    · cases hsp : splitCh c xs with
      | nil => rw [hsp] at ih; simp at ih
      | cons y ys =>
        rw [hsp] at ih
        have hx' : c ≠ x := Ne.symm hx
        simp only [splitCh, hx, if_false, hsp, List.length_cons] at *
        simpa [List.count_cons, hx'] using ih

theorem pySplit_length (c : Char) (s : String) :
    (pySplit c s).length = s.toList.count c + 1 := by
  simp [pySplit, splitCh_length]

theorem pyContains_eq_false (c : Char) (s : String) (h : c ∉ s.toList) :
    pyContains c s = false := by
  rw [pyContains, Bool.eq_false_iff]
  intro htrue
  obtain ⟨x, hx, hxc⟩ := List.any_eq_true.mp htrue
  simp only [decide_eq_true_eq] at hxc
  exact h (hxc ▸ hx)

/-! ### Lemmas about the dictionary model -/

theorem dictFind_dictSet_self {α : Type} (d : List (String × α)) (k : String) (v : α) :
    dictFind (dictSet d k v) k = some v := by
  induction d with
  | nil => simp [dictSet, dictFind]
  | cons p t ih =>
    obtain ⟨k', v'⟩ := p
    by_cases h : k' = k
    · subst h; simp [dictSet, dictFind]
    · simp [dictSet, dictFind, h, ih]

theorem dictFind_dictSet_ne {α : Type} (d : List (String × α)) (k k' : String) (v : α)
    (h : k' ≠ k) : dictFind (dictSet d k v) k' = dictFind d k' := by
  have h' : ¬ k = k' := fun e => h e.symm
  induction d with
  | nil => simp [dictSet, dictFind, h']
  | cons p t ih =>
    obtain ⟨k'', v''⟩ := p
    by_cases h2 : k'' = k
    · subst h2
      simp [dictSet, dictFind, h']
    · simp [dictSet, dictFind, h2, ih]

theorem pyContains_of_mem (c : Char) (s : String) (h : c ∈ s.toList) :
    pyContains c s = true := by
  rw [pyContains]
  exact List.any_eq_true.mpr ⟨c, h, by simp⟩

theorem pyContains_of_split (c : Char) (s p0 p1 : String) (rest : List String)
    (h : pySplit c s = p0 :: p1 :: rest) : pyContains c s = true := by
  have hlen : (pySplit c s).length = rest.length + 2 := by rw [h]; simp
  rw [pySplit_length] at hlen
  have hpos : 0 < s.toList.count c := by omega
  exact pyContains_of_mem c s (List.count_pos_iff.mp hpos)

/-- Normal form of `processLine` on a well-formed line whose part number is
already in the store (the merge branch). -/
theorem processLine_merge (st : ImportState) (line : String) (p0 p1 : String)
    (rest : List String) (old : PartData)
    (hsplit : pySplit '\t' line = p0 :: p1 :: rest)
    (hfind : dictFind st.partsData (pyUpper (pyStrip p0)) = some old) :
    processLine st line =
      { st with
        partsData :=
          dictSet st.partsData (pyUpper (pyStrip p0))
            { old with
              parent :=
                if lineParent p1 ≠ "" ∧ old.parent = "" then lineParent p1
                else old.parent
              issues :=
                if lineIssues rest ≠ "" then lineIssues rest else old.issues }
        updatedCount :=
          if (lineParent p1 ≠ "" ∧ old.parent = "") ∨ lineIssues rest ≠ "" then
            st.updatedCount + 1
          else st.updatedCount
        issuesUpdatedCount :=
          if lineIssues rest ≠ "" then st.issuesUpdatedCount + 1
          else st.issuesUpdatedCount } := by
  have hc : pyContains '\t' line = true := pyContains_of_split _ _ _ _ _ hsplit
  simp only [processLine, hc, if_true, hsplit, hfind]

/-- Normal form of `processLine` on a well-formed line whose part number is
not yet in the store (the insert branch). -/
theorem processLine_insert (st : ImportState) (line : String) (p0 p1 : String)
    (rest : List String)
    (hsplit : pySplit '\t' line = p0 :: p1 :: rest)
    (hfind : dictFind st.partsData (pyUpper (pyStrip p0)) = none) :
    processLine st line =
      { st with
        partsData :=
          dictSet st.partsData (pyUpper (pyStrip p0))
            { parent := lineParent p1, issues := lineIssues rest, usage := "" }
        importedCount := st.importedCount + 1 } := by
  have hc : pyContains '\t' line = true := pyContains_of_split _ _ _ _ _ hsplit
  simp only [processLine, hc, if_true, hsplit, hfind]

/-- Claim C2. On a processed import line whose part number already exists in
the store, `parent` is changed only when the existing `parent` is blank and
the line supplies a non-blank parent (a non-blank existing parent is never
overwritten), and `issues` is set to the incoming value exactly when the line
supplies a non-blank issues value. -/
theorem merge_import_parent_issues_policy (st : ImportState) (line : String)
    (p0 p1 : String) (rest : List String) (old : PartData)
    (hsplit : pySplit '\t' line = p0 :: p1 :: rest)
    (hfind : dictFind st.partsData (pyUpper (pyStrip p0)) = some old) :
    ∃ e, dictFind (processLine st line).partsData (pyUpper (pyStrip p0)) = some e ∧
      (old.parent ≠ "" → e.parent = old.parent) ∧
      (e.parent ≠ old.parent →
        old.parent = "" ∧ lineParent p1 ≠ "" ∧ e.parent = lineParent p1) ∧
      (lineIssues rest ≠ "" → e.issues = lineIssues rest) ∧
      (lineIssues rest = "" → e.issues = old.issues) := by
  rw [processLine_merge st line p0 p1 rest old hsplit hfind]
  refine ⟨_, dictFind_dictSet_self _ _ _, ?_, ?_, ?_, ?_⟩
  · intro hold
    simp only []
    rw [if_neg]
    intro ⟨_, hblank⟩
    exact hold hblank
  · intro hne
    by_cases hcond : lineParent p1 ≠ "" ∧ old.parent = ""
    · exact ⟨hcond.2, hcond.1, by simp [if_pos hcond]⟩
    · exfalso
      apply hne
      simp [if_neg hcond]
  · intro hiss
    simp only [if_pos hiss]
  · intro hiss
    simp only []
    rw [if_neg]
    simp [hiss]

theorem merge_import_parent_issues_policy_witness :
    ∃ e, dictFind (processLine ⟨exStore, 0, 0, 0⟩ "x1\tP2\tcracked").partsData
        (pyUpper (pyStrip "x1")) = some e ∧
      (PartData.parent ⟨"X0", "old", "keep"⟩ ≠ "" →
        e.parent = PartData.parent ⟨"X0", "old", "keep"⟩) ∧
      (e.parent ≠ PartData.parent ⟨"X0", "old", "keep"⟩ →
        PartData.parent ⟨"X0", "old", "keep"⟩ = "" ∧ lineParent "P2" ≠ "" ∧
          e.parent = lineParent "P2") ∧
      (lineIssues ["cracked"] ≠ "" → e.issues = lineIssues ["cracked"]) ∧
      (lineIssues ["cracked"] = "" → e.issues = PartData.issues ⟨"X0", "old", "keep"⟩) :=
  merge_import_parent_issues_policy ⟨exStore, 0, 0, 0⟩ "x1\tP2\tcracked"
    "x1" "P2" ["cracked"] ⟨"X0", "old", "keep"⟩ (by decide) (by decide)

/-- Claim C8. An import line with fewer than two tab-separated fields leaves
the whole import state — the store and all three counters — unchanged. -/
theorem import_ignores_malformed_lines (st : ImportState) (line : String)
    (h : (pySplit '\t' line).length < 2) : processLine st line = st := by
  have hh := pySplit_length '\t' line
  have hcount : line.toList.count '\t' = 0 := by omega
  have hmem : '\t' ∉ line.toList := by
    intro hm
    rw [List.count_eq_zero] at hcount
    exact hcount hm
  have hc : pyContains '\t' line = false := pyContains_eq_false _ _ hmem
  simp [processLine, hc]

theorem import_ignores_malformed_lines_witness :
    (pySplit '\t' "NO TAB HERE").length < 2 ∧
      processLine ⟨exStore, 3, 4, 5⟩ "NO TAB HERE" = ⟨exStore, 3, 4, 5⟩ :=
  ⟨by decide, import_ignores_malformed_lines ⟨exStore, 3, 4, 5⟩ "NO TAB HERE" (by decide)⟩

/-- A single import line never changes the `usage` of a part already in the
store (and never removes the part). -/
theorem processLine_usage_preserved (st : ImportState) (line : String)
    (p : String) (old : PartData) (h : dictFind st.partsData p = some old) :
    ∃ e, dictFind (processLine st line).partsData p = some e ∧
      e.usage = old.usage := by
  cases hc : pyContains '\t' line with
  | false =>
    refine ⟨old, ?_, rfl⟩
    simp [processLine, hc, h]
  | true =>
    cases hsp : pySplit '\t' line with
    | nil =>
      refine ⟨old, ?_, rfl⟩
      simp [processLine, hc, hsp, h]
    | cons p0 tail =>
      cases tail with
      | nil =>
        refine ⟨old, ?_, rfl⟩
        simp [processLine, hc, hsp, h]
      | cons p1 rest =>
        cases hfind : dictFind st.partsData (pyUpper (pyStrip p0)) with
        | some old' =>
          rw [processLine_merge st line p0 p1 rest old' hsp hfind]
          by_cases hkey : p = pyUpper (pyStrip p0)
          · subst hkey
            rw [h] at hfind
            injection hfind with hoo
            refine ⟨_, dictFind_dictSet_self _ _ _, ?_⟩
            rw [← hoo]
          · refine ⟨old, ?_, rfl⟩
            rw [dictFind_dictSet_ne _ _ _ _ hkey]
            exact h
        | none =>
          rw [processLine_insert st line p0 p1 rest hsp hfind]
          by_cases hkey : p = pyUpper (pyStrip p0)
          · subst hkey
            rw [h] at hfind
            exact absurd hfind (by simp)
          · refine ⟨old, ?_, rfl⟩
            rw [dictFind_dictSet_ne _ _ _ _ hkey]
            exact h

/-- A part inserted by a single import line has empty `usage`. -/
theorem processLine_new_usage (st : ImportState) (line : String) (p : String)
    (e : PartData) (h : dictFind st.partsData p = none)
    (he : dictFind (processLine st line).partsData p = some e) : e.usage = "" := by
  cases hc : pyContains '\t' line with
  | false =>
    simp [processLine, hc] at he
    rw [h] at he
    exact absurd he (by simp)
  | true =>
    cases hsp : pySplit '\t' line with
    | nil =>
      simp [processLine, hc, hsp] at he
      rw [h] at he
      exact absurd he (by simp)
    | cons p0 tail =>
      cases tail with
      | nil =>
        simp [processLine, hc, hsp] at he
        rw [h] at he
        exact absurd he (by simp)
      | cons p1 rest =>
        cases hfind : dictFind st.partsData (pyUpper (pyStrip p0)) with
        | some old' =>
          rw [processLine_merge st line p0 p1 rest old' hsp hfind] at he
          by_cases hkey : p = pyUpper (pyStrip p0)
          · subst hkey
            rw [h] at hfind
            exact absurd hfind (by simp)
          · rw [dictFind_dictSet_ne _ _ _ _ hkey] at he
            rw [h] at he
            exact absurd he (by simp)
        | none =>
          rw [processLine_insert st line p0 p1 rest hsp hfind] at he
          by_cases hkey : p = pyUpper (pyStrip p0)
          · subst hkey
            rw [dictFind_dictSet_self] at he
            injection he with hee
            rw [← hee]
          · rw [dictFind_dictSet_ne _ _ _ _ hkey] at he
            rw [h] at he
            exact absurd he (by simp)

/-- The usage-frame invariant carried through the whole line fold. -/
theorem processLines_usage (lines : List String) (st : ImportState) (p : String) :
    (∀ old, dictFind st.partsData p = some old →
      ∃ e, dictFind ((lines.foldl processLine st).partsData) p = some e ∧
        e.usage = old.usage) ∧
    (dictFind st.partsData p = none →
      ∀ e, dictFind ((lines.foldl processLine st).partsData) p = some e →
        e.usage = "") := by
  induction lines generalizing st with
  | nil =>
    constructor
    · intro old h
      exact ⟨old, h, rfl⟩
    · intro h e he
      rw [List.foldl_nil, h] at he
      exact absurd he (by simp)
  | cons line rest ih =>
    rw [List.foldl_cons]
    constructor
    · intro old h
      obtain ⟨e1, he1, hu1⟩ := processLine_usage_preserved st line p old h
      obtain ⟨e2, he2, hu2⟩ := (ih (processLine st line)).1 e1 he1
      exact ⟨e2, he2, hu2.trans hu1⟩
    · intro h e2 he2
      cases hmid : dictFind (processLine st line).partsData p with
      | none => exact (ih (processLine st line)).2 hmid e2 he2
      | some e1 =>
        have hu1 : e1.usage = "" := processLine_new_usage st line p e1 h hmid
        obtain ⟨e2', he2', hu2⟩ := (ih (processLine st line)).1 e1 hmid
        rw [he2'] at he2
        injection he2 with hee
        rw [hee] at hu2
        rw [hu2, hu1]

/-- Claim C10. Merge-Import leaves the `usage` of every pre-existing part
unchanged whatever the import text contains, and any part it inserts gets
an empty `usage`. -/
theorem merge_import_preserves_usage (store : PartsCollection) (text : String) :
    (∀ p old, dictFind store p = some old →
      ∃ e, dictFind (runImport store text).partsData p = some e ∧
        e.usage = old.usage) ∧
    (∀ p e, dictFind store p = none →
      dictFind (runImport store text).partsData p = some e → e.usage = "") := by
  rw [runImport]
  by_cases htext : pyStrip text ≠ ""
  · rw [if_pos htext]
    constructor
    · intro p old h
      exact (processLines_usage _ ⟨store, 0, 0, 0⟩ p).1 old h
    · intro p e h he
      exact (processLines_usage _ ⟨store, 0, 0, 0⟩ p).2 h e he
  · rw [if_neg htext]
    constructor
    · intro p old h
      exact ⟨old, h, rfl⟩
    · intro p e h he
      rw [h] at he
      exact absurd he (by simp)

theorem merge_import_preserves_usage_witness :
    ∃ e, dictFind (runImport exStore "x1\tP2\tcracked\nZ9\tQ7").partsData "X1" =
        some e ∧ e.usage = PartData.usage ⟨"X0", "old", "keep"⟩ :=
  (merge_import_preserves_usage exStore "x1\tP2\tcracked\nZ9\tQ7").1 "X1"
    ⟨"X0", "old", "keep"⟩ (by decide)

/-! ### Review / scoring workflow -/

/-- Claim C3. An accepted review (the idea exists at `idx` and the acting user
has not reviewed it yet) sets the ledger entry of the acting reviewer to its old
value (implicitly 0 when absent) plus 5, leaves every other ledger entry
unchanged, and produces the same ledger whether `accurate` is `true` or
`false`. -/
theorem review_awards_five_points (ideas : List Idea) (points : PointsLedger)
    (idx : Nat) (user ts : String) (acc : Bool) (u : String) (idea : Idea)
    (h1 : ideas[idx]? = some idea)
    (h2 : userReviewed idea user = false)
    (h3 : u ≠ user) :
    dictGetD (reviewIdea ideas points idx user ts acc).2 user 0 =
      dictGetD points user 0 + 5 ∧
    dictGetD (reviewIdea ideas points idx user ts acc).2 u 0 =
      dictGetD points u 0 ∧
    (reviewIdea ideas points idx user ts true).2 =
      (reviewIdea ideas points idx user ts false).2 := by
  have hred : ∀ b : Bool,
      (reviewIdea ideas points idx user ts b).2 =
        dictSet points user (dictGetD points user 0 + 5) := by
    intro b
    simp [reviewIdea, h1, h2]
  refine ⟨?_, ?_, ?_⟩
  · rw [hred, dictGetD, dictFind_dictSet_self]
    rfl
  · rw [hred, dictGetD, dictFind_dictSet_ne _ _ _ _ h3, dictGetD]
  · rw [hred, hred]

theorem review_awards_five_points_witness :
    dictGetD (reviewIdea [exIdea1] [] 0 "alice" "t9" true).2 "alice" 0 =
      dictGetD [] "alice" 0 + 5 ∧
    dictGetD (reviewIdea [exIdea1] [] 0 "alice" "t9" true).2 "bob" 0 =
      dictGetD [] "bob" 0 ∧
    (reviewIdea [exIdea1] [] 0 "alice" "t9" true).2 =
      (reviewIdea [exIdea1] [] 0 "alice" "t9" false).2 :=
  review_awards_five_points [exIdea1] [] 0 "alice" "t9" true "bob" exIdea1
    (by decide) (by decide) (by decide)

/-- Re-training overwrites the first training stamp: the second call wins. -/
theorem markTrained_absorb (ideas : List Idea) (ideaId : Nat)
    (t1 ts1 t2 ts2 : String) :
    markTrained (markTrained ideas ideaId t1 ts1) ideaId t2 ts2 =
      markTrained ideas ideaId t2 ts2 := by
  induction ideas with
  | nil => rfl
  | cons idea rest ih =>
    by_cases h : idea.id = ideaId
    · simp [markTrained, h]
    · simp [markTrained, h, ih]

theorem findIdea_markTrained (ideas : List Idea) (ideaId : Nat)
    (trainer ts : String) (idea : Idea) (h : findIdea ideas ideaId = some idea) :
    findIdea (markTrained ideas ideaId trainer ts) ideaId =
      some { idea with trained := true, trainedBy := some trainer,
                       trainedAt := some ts } := by
  induction ideas with
  | nil => simp [findIdea] at h
  | cons head rest ih =>
    by_cases hh : head.id = ideaId
    · rw [findIdea, if_pos hh] at h
      injection h with hhead
      subst hhead
      simp [markTrained, findIdea, hh]
    · rw [findIdea, if_neg hh] at h
      simp [markTrained, findIdea, hh]
      exact ih h

/-- Claim C9. The mark-trained action is idempotent in final state: two
successive calls (with possibly different trainers/timestamps) are the same
as the second call alone, and the affected idea ends `trained = true`
carrying the trainer and timestamp of the second call. -/
theorem mark_trained_idempotent (ideas : List Idea) (ideaId : Nat)
    (t1 ts1 t2 ts2 : String) (idea : Idea)
    (h : findIdea ideas ideaId = some idea) :
    markTrained (markTrained ideas ideaId t1 ts1) ideaId t2 ts2 =
      markTrained ideas ideaId t2 ts2 ∧
    findIdea (markTrained (markTrained ideas ideaId t1 ts1) ideaId t2 ts2)
        ideaId =
      some { idea with trained := true, trainedBy := some t2,
                       trainedAt := some ts2 } := by
  constructor
  · exact markTrained_absorb ideas ideaId t1 ts1 t2 ts2
  · rw [markTrained_absorb ideas ideaId t1 ts1 t2 ts2]
    exact findIdea_markTrained ideas ideaId t2 ts2 idea h

theorem mark_trained_idempotent_witness :
    markTrained (markTrained [exIdea1] 1 "bob" "t3") 1 "carl" "t4" =
      markTrained [exIdea1] 1 "carl" "t4" ∧
    findIdea (markTrained (markTrained [exIdea1] 1 "bob" "t3") 1 "carl" "t4") 1 =
      some { exIdea1 with trained := true, trainedBy := some "carl",
                          trainedAt := some "t4" } :=
  mark_trained_idempotent [exIdea1] 1 "bob" "t3" "carl" "t4" exIdea1 (by decide)

/-- Claim C7. A submission with blank (empty or whitespace-only) idea text, or
whose tag resolves to blank, is rejected: `submitIdea` returns `none`, so
nothing is appended and nothing is saved.  (`selectedTag` ranges over the
selectbox options offered by the form.) -/
theorem submit_rejects_blank (ideas : List Idea)
    (ideaText link selectedTag customTag user ts : String)
    (hsel : selectedTag ∈ predefinedTags)
    (hblank : pyStrip ideaText = "" ∨
      pyStrip (effectiveTag selectedTag customTag) = "") :
    submitIdea ideas ideaText link selectedTag customTag user ts = none := by
  rcases hblank with ht | htag
  · simp [submitIdea, ht]
  · by_cases ht : pyStrip ideaText ≠ ""
    · by_cases hc : selectedTag = "Custom..."
      · subst hc
        simp [submitIdea, ht, htag]
      · exfalso
        fin_cases hsel <;>
          first
          | exact hc rfl
          | (simp [effectiveTag] at htag
             exact absurd htag (by decide))
    · have ht' : pyStrip ideaText = "" := not_not.mp ht
      simp [submitIdea, ht']

theorem submit_rejects_blank_witness :
    ("UX" ∈ predefinedTags ∧ pyStrip "   " = "") ∧
      submitIdea [] "   " "" "UX" "" "michael" "t1" = none :=
  ⟨⟨by decide, by decide⟩,
    submit_rejects_blank [] "   " "" "UX" "" "michael" "t1" (by decide)
      (Or.inl (by decide))⟩

/-- Structure of a successful submission: the new idea, with
`id = len(ideas) + 1`, empty reviews and `trained = false`, is appended. -/
theorem submitIdea_some (ideas : List Idea) (t l sel c u ts : String)
    (r : List Idea) (h : submitIdea ideas t l sel c u ts = some r) :
    r = ideas ++
      [{ id := ideas.length + 1, text := pyStrip t,
         link := if pyStrip l ≠ "" then some (pyStrip l) else none,
         tag := pyStrip (effectiveTag sel c), submitter := u, submittedAt := ts,
         reviews := [], trained := false }] := by
  simp only [submitIdea] at h
  split at h
  · split at h
    · exact absurd h (by simp)
    · split at h
      · exact absurd h (by simp)
      · injection h with hr
        exact hr.symm
  · exact absurd h (by simp)

/-- The mark-trained action never changes the review list of any idea. -/
theorem markTrained_reviews (ideas : List Idea) (ideaId : Nat) (tr ts : String)
    (x : Idea) (hx : x ∈ markTrained ideas ideaId tr ts) :
    ∃ y ∈ ideas, x.reviews = y.reviews := by
  induction ideas with
  | nil => simp [markTrained] at hx
  | cons head rest ih =>
    by_cases hh : head.id = ideaId
    · rw [markTrained, if_pos hh] at hx
      rcases List.mem_cons.mp hx with hx1 | hx2
      · exact ⟨head, List.mem_cons_self _ _, by rw [hx1]⟩
      · exact ⟨x, List.mem_cons_of_mem _ hx2, rfl⟩
    · rw [markTrained, if_neg hh] at hx
      rcases List.mem_cons.mp hx with hx1 | hx2
      · exact ⟨head, List.mem_cons_self _ _, by rw [hx1]⟩
      · obtain ⟨y, hy, hr⟩ := ih hx2
        exact ⟨y, List.mem_cons_of_mem _ hy, hr⟩

/-- The review action preserves the one-review-per-reviewer invariant: a
repeat reviewer is blocked, a fresh reviewer appends a reviewer name that
does not occur yet. -/
theorem reviewersNodup_reviewIdea (ideas : List Idea) (points : PointsLedger)
    (idx : Nat) (user ts : String) (acc : Bool) (h : reviewersNodup ideas) :
    reviewersNodup (reviewIdea ideas points idx user ts acc).1 := by
  cases hg : ideas[idx]? with
  | none =>
    simp [reviewIdea, hg]
    exact h
  | some idea =>
    cases hu : userReviewed idea user with
    | true =>
      simp [reviewIdea, hg, hu]
      exact h
    | false =>
      simp only [reviewIdea, hg, hu, Bool.false_eq_true, if_false]
      intro x hx
      rcases List.mem_or_eq_of_mem_set hx with hmem | hx_eq
      · exact h x hmem
      · rw [hx_eq]
        have hidea : idea ∈ ideas := by
          have := List.getElem?_eq_some_iff.mp hg
          obtain ⟨hlt, he⟩ := this
          exact he ▸ List.getElem_mem hlt
        have hnd := h idea hidea
        simp only [List.map_append, List.map_cons, List.map_nil]
        rw [List.nodup_append]
        refine ⟨hnd, by simp, ?_⟩
        intro a ha hb
        simp only [List.mem_singleton] at hb
        subst hb
        rw [userReviewed] at hu
        obtain ⟨rv, hrv, hru⟩ := List.mem_map.mp ha
        have hfalse := List.any_eq_false.mp hu rv hrv
        simp [hru] at hfalse

/-- Every workflow operation preserves the invariant. -/
theorem reviewersNodup_applyOp (s : List Idea × PointsLedger) (op : TribalOp)
    (h : reviewersNodup s.1) : reviewersNodup (applyOp s op).1 := by
  cases op with
  | submitOp t l sel c u ts =>
    cases hs : submitIdea s.1 t l sel c u ts with
    | none =>
      simp [applyOp, hs]
      exact h
    | some r =>
      simp only [applyOp, hs]
      rw [submitIdea_some s.1 t l sel c u ts r hs]
      intro x hx
      rcases List.mem_append.mp hx with hm | hm
      · exact h x hm
      · simp only [List.mem_singleton] at hm
        rw [hm]
        simp
  | reviewOp idx u ts acc => exact reviewersNodup_reviewIdea s.1 s.2 idx u ts acc h
  | trainOp ideaId tr ts =>
    simp only [applyOp]
    intro x hx
    obtain ⟨y, hy, hr⟩ := markTrained_reviews s.1 ideaId tr ts x hx
    rw [hr]
    exact h y hy

/-- The invariant is preserved by any sequence of operations. -/
theorem reviewersNodup_foldl (ops : List TribalOp) (s : List Idea × PointsLedger)
    (h : reviewersNodup s.1) : reviewersNodup ((ops.foldl applyOp s)).1 := by
  induction ops generalizing s with
  | nil => simpa using h
  | cons op rest ih =>
    rw [List.foldl_cons]
    exact ih (applyOp s op) (reviewersNodup_applyOp s op h)

/-- Claim C4. Starting from any state satisfying it, every sequence of
submit, review and mark-trained operations preserves at-most-one-review per
reviewer identity per idea; moreover a review action by a reviewer who
already has an entry in the reviews of the idea is blocked and changes
nothing. -/
theorem review_per_reviewer_invariant (s : List Idea × PointsLedger)
    (ops : List TribalOp) (ideas : List Idea) (points : PointsLedger)
    (idx : Nat) (user ts : String) (acc : Bool) (idea : Idea)
    (hinv : reviewersNodup s.1)
    (hidx : ideas[idx]? = some idea)
    (hdone : userReviewed idea user = true) :
    reviewersNodup ((ops.foldl applyOp s)).1 ∧
      reviewIdea ideas points idx user ts acc = (ideas, points) := by
  constructor
  · exact reviewersNodup_foldl ops s hinv
  · simp [reviewIdea, hidx, hdone]

/-- A short operation sequence exercising all three operations. -/
def exOps : List TribalOp :=
  [TribalOp.reviewOp 0 "bob" "t9" true, TribalOp.trainOp 2 "bob" "t10",
   TribalOp.submitOp "new idea" "" "UX" "" "michael" "t11"]

theorem review_per_reviewer_invariant_witness :
    reviewersNodup ((exOps.foldl applyOp ([exIdea2], [("alice", 5)])).1) ∧
      reviewIdea [exIdea2] [("alice", 5)] 0 "alice" "t12" true =
        ([exIdea2], [("alice", 5)]) :=
  review_per_reviewer_invariant ([exIdea2], [("alice", 5)]) exOps [exIdea2]
    [("alice", 5)] 0 "alice" "t12" true exIdea2 (by decide) (by decide) (by decide)

/-! ### Idea id assignment -/

theorem foldl_max_range' (n : Nat) :
    List.foldl max 0 (List.range' 1 n) = n := by
  induction n with
  | zero => rfl
  | succ k ih =>
    rw [List.range'_concat, List.foldl_append, ih]
    simp
    omega

theorem maxExistingId_sequential (ideas : List Idea)
    (h : ideas.map Idea.id = List.range' 1 ideas.length) :
    maxExistingId ideas = ideas.length := by
  have h2 := List.foldl_map Idea.id (fun m n => max m n) ideas 0
  rw [maxExistingId, ← h2, h, foldl_max_range']

/-- Claim C5, counterexample. On a collection holding a single idea with
id 5, a successful submit assigns id 2 (`len + 1`), not the maximum
existing id plus one, which is 6. -/
theorem submit_id_not_max_plus_one :
    (submitIdea [exIdea5] "good idea" "" "UX" "" "alice" "t2").map
        (fun l => l.map Idea.id) = some [5, 2] ∧
      maxExistingId [exIdea5] + 1 = 6 ∧ (2 : Nat) ≠ 6 := by
  decide

/-- Claim C5, amended. Submit assigns the length-plus-one id; on every
collection whose ids are exactly `1..n` in order — which is every collection
reachable by submissions alone — this equals the maximum existing id plus
one, so ids increase monotonically across submissions (and the first idea
of an empty collection gets id 1). -/
theorem submit_assigns_sequential_id (ideas : List Idea)
    (t l sel c u ts : String) (r : List Idea)
    (hseq : ideas.map Idea.id = List.range' 1 ideas.length)
    (hs : submitIdea ideas t l sel c u ts = some r) :
    r.map Idea.id = ideas.map Idea.id ++ [maxExistingId ideas + 1] := by
  rw [submitIdea_some ideas t l sel c u ts r hs, List.map_append]
  simp [maxExistingId_sequential ideas hseq]

/-- The result of submitting "good" onto `[exIdea1, exIdea2]`. -/
def exSubmitted : List Idea :=
  [exIdea1, exIdea2,
   { id := 3, text := "good", link := none, tag := "UX", submitter := "alice",
     submittedAt := "t3", reviews := [], trained := false }]

theorem submit_assigns_sequential_id_witness :
    exSubmitted.map Idea.id =
      [exIdea1, exIdea2].map Idea.id ++ [maxExistingId [exIdea1, exIdea2] + 1] :=
  submit_assigns_sequential_id [exIdea1, exIdea2] "good" "" "UX" "" "alice" "t3"
    exSubmitted (by decide) (by decide)

/-! ### Record store loading -/

/-- Claim C6, counterexample. In tribal.py, load_json on an absent backing
document returns the empty default but does not create the document: the
disk stays absent, which is not the `stored []` state that "creates an empty
backing document" requires.  (File creation happens only in
`initialize_json_files`, outside `load_json`.) -/
theorem load_json_does_not_create_document :
    load_json ([] : List Idea) Doc.absent = ([], Doc.absent) ∧
      (Doc.absent : Doc (List Idea)) ≠ Doc.stored [] := by
  constructor
  · rfl
  · intro hcontra
    exact Doc.noConfusion hcontra

/-- Claim C6, amended. Function load_parts on a missing document returns the empty
collection and creates an empty backing document; on an unparsable document
it returns the empty collection leaving the document alone; neither path
raises.  Function load_json of tribal.py likewise returns the (filename-selected)
empty default on a missing or unparsable document without raising, but
never writes the document. -/
theorem record_store_load_contract :
    (load_parts Doc.absent = ([], Doc.stored []) ∧
      load_parts Doc.corrupt = ([], Doc.corrupt) ∧
      ∀ c : PartsCollection, load_parts (Doc.stored c) = (c, Doc.stored c)) ∧
    ∀ (α : Type) (dflt : α),
      load_json dflt Doc.absent = (dflt, Doc.absent) ∧
      load_json dflt Doc.corrupt = (dflt, Doc.corrupt) :=
  ⟨⟨rfl, rfl, fun _ => rfl⟩, fun _ _ => ⟨rfl, rfl⟩⟩

/-! ### HTML escaping -/

theorem escLt_append (a b : List Char) :
    escLt (a ++ b) = escLt a ++ escLt b := by
  induction a with
  | nil => simp [escLt]
  | cons c cs ih => by_cases h : c = '<' <;> simp [escLt, h, ih]

theorem escGt_append (a b : List Char) :
    escGt (a ++ b) = escGt a ++ escGt b := by
  induction a with
  | nil => simp [escGt]
  | cons c cs ih => by_cases h : c = '>' <;> simp [escGt, h, ih]

theorem htmlSafe_amp (r : List Char) :
    htmlSafe ('&' :: 'a' :: 'm' :: 'p' :: ';' :: r) = htmlSafe r := rfl

theorem htmlSafe_lt (r : List Char) :
    htmlSafe ('&' :: 'l' :: 't' :: ';' :: r) = htmlSafe r := rfl

theorem htmlSafe_gt (r : List Char) :
    htmlSafe ('&' :: 'g' :: 't' :: ';' :: r) = htmlSafe r := rfl

theorem htmlSafe_cons_other (c : Char) (h1 : c ≠ '<') (h2 : c ≠ '&')
    (r : List Char) : htmlSafe (c :: r) = htmlSafe r := by
  rw [htmlSafe.eq_def]
  split
  · simp_all
  · simp_all
  · simp_all
  · simp_all
  · rename_i heq
    injection heq with hce hre
    subst hce
    subst hre
    rw [if_neg]
    rintro (hc | hc)
    · exact h1 hc
    · exact h2 hc

/-- The chained replace of the parts exporter always yields well-escaped
text: no raw `<` remains and every `&` starts one of the three entities. -/
theorem htmlSafe_escapeHtml (l : List Char) : htmlSafe (escapeHtml l) = true := by
  induction l with
  | nil => rfl
  | cons c cs ih =>
    by_cases h1 : c = '&'
    · subst h1
      have e1 : escAmp ('&' :: cs) = ['&', 'a', 'm', 'p', ';'] ++ escAmp cs := by
        simp [escAmp]
      rw [escapeHtml, e1, escLt_append, escGt_append]
      have e2 : escGt (escLt ['&', 'a', 'm', 'p', ';']) = ['&', 'a', 'm', 'p', ';'] := by
        decide
      rw [e2]
      show htmlSafe ('&' :: 'a' :: 'm' :: 'p' :: ';' :: escGt (escLt (escAmp cs))) = true
      rw [htmlSafe_amp]
      exact ih
    · by_cases h2 : c = '<'
      · subst h2
        have e1 : escAmp ('<' :: cs) = '<' :: escAmp cs := by simp [escAmp]
        have e2 : escLt ('<' :: escAmp cs) = ['&', 'l', 't', ';'] ++ escLt (escAmp cs) := by
          simp [escLt]
        rw [escapeHtml, e1, e2, escGt_append]
        have e3 : escGt ['&', 'l', 't', ';'] = ['&', 'l', 't', ';'] := by decide
        rw [e3]
        show htmlSafe ('&' :: 'l' :: 't' :: ';' :: escGt (escLt (escAmp cs))) = true
        rw [htmlSafe_lt]
        exact ih
      · by_cases h3 : c = '>'
        · subst h3
          have e1 : escAmp ('>' :: cs) = '>' :: escAmp cs := by simp [escAmp]
          have e2 : escLt ('>' :: escAmp cs) = '>' :: escLt (escAmp cs) := by
            simp [escLt]
          have e3 : escGt ('>' :: escLt (escAmp cs)) =
              ['&', 'g', 't', ';'] ++ escGt (escLt (escAmp cs)) := by
            simp [escGt]
          rw [escapeHtml, e1, e2, e3]
          show htmlSafe ('&' :: 'g' :: 't' :: ';' :: escGt (escLt (escAmp cs))) = true
          rw [htmlSafe_gt]
          exact ih
        · have e1 : escAmp (c :: cs) = c :: escAmp cs := by simp [escAmp, h1]
          have e2 : escLt (c :: escAmp cs) = c :: escLt (escAmp cs) := by
            simp [escLt, h2]
          have e3 : escGt (c :: escLt (escAmp cs)) = c :: escGt (escLt (escAmp cs)) := by
            simp [escGt, h3]
          rw [escapeHtml, e1, e2, e3, htmlSafe_cons_other c h2 h1]
          exact ih

/-- Claim C1, counterexample. The tribal ideas report interpolates the free
text of an idea verbatim: for an idea whose text is `a<b&c` the rendered row
contains that text with its raw `<` and `&` (it is not well-escaped, and
differs from what escaping would have produced). -/
theorem tribal_report_unescaped :
    List.IsInfix "a<b&c".toList (tribalRow exIdeaMarkup).toList ∧
      htmlSafe "a<b&c".toList = false ∧
      String.mk (escapeHtml "a<b&c".toList) ≠ "a<b&c" := by
  decide

/-- Claim C1, amended. In the parts export every free-text field (`parent`,
`issues`, `usage`) is passed through the escape chain before interpolation,
and the escaped text contains no raw `<` and only entity-forming `&`; the
tribal ideas report, by contrast, interpolates its free-text fields
unescaped. -/
theorem parts_export_escapes_text_fields (data : PartData) :
    htmlSafe (escapeHtml data.parent.toList) = true ∧
      htmlSafe (escapeHtml data.issues.toList) = true ∧
      htmlSafe (escapeHtml data.usage.toList) = true :=
  ⟨htmlSafe_escapeHtml _, htmlSafe_escapeHtml _, htmlSafe_escapeHtml _⟩

end Visuals
